import Mathlib

/-!
Verification of the POP3 / TLS core of this mail client.

The definitions below are a shallow embedding of the C sources:
  * `conn/socket.c` : `mutt_socket_readln_d` / `mutt_socket_readchar`
  * the OpenSSL trust engine (`hostname_match`, `check_host`,
    `compare_certificates`, `check_certificate_cache`,
    `check_certificate_expiration`, `check_certificate_file`,
    `check_certificate_by_digest`, `interactive_check_cert`,
    `ssl_verify_callback`)
  * the POP3 driver (`fetch_uidl`, `pop_fetch_headers`,
    `pop_fetch_message`, `pop_check_mailbox`)

C strings are modelled as `List Char` (no embedded NUL semantics), machine
integers as `Int`/`Nat`, and the effects that cross the interface boundary
(socket reads, server replies, user key presses, file writes) as explicit
inputs.  External collaborators (header cache, body cache, envelope parser,
curses UI) are abstracted to the bits of their behaviour the driver observes.
-/

set_option autoImplicit false

namespace NeoMutt

/-! ## ASCII helpers (strcasecmp / strchr) -/

/-- ASCII lower-casing of one character, as `strcasecmp` does per byte. -/
def asciiLower (c : Char) : Char :=
  if 'A' ≤ c ∧ c ≤ 'Z' then Char.ofNat (c.toNat + 32) else c

/-- `strcasecmp(a, b) == 0`: equality up to ASCII case. -/
def caseEq (a b : List Char) : Bool :=
  a.map asciiLower = b.map asciiLower

/-- `strchr(s, '.')` followed by `++`: the suffix of `s` after its first
`'.'`, or `none` when `s` contains no `'.'`. -/
def afterFirstDot : List Char → Option (List Char)
  | [] => none
  | c :: t => if c = '.' then some t else afterFirstDot t

/-! ## `hostname_match` (ssl.c)

```
static bool hostname_match(const char *hostname, const char *certname)
{
  if (strncmp(certname, "*.", 2) == 0) {
    cmp1 = certname + 2;
    cmp2 = strchr(hostname, '.');
    if (!cmp2) return false; else cmp2++;
  } else { cmp1 = certname; cmp2 = hostname; }
  if (*cmp1 == '\0' || *cmp2 == '\0') return false;
  if (strcasecmp(cmp1, cmp2) != 0) return false;
  return true;
}
```
-/

def hostname_match (hostname certname : List Char) : Bool :=
  match certname with
  | '*' :: '.' :: rest =>
    match afterFirstDot hostname with
    | none => false
    | some tail => !rest.isEmpty && !tail.isEmpty && caseEq rest tail
  | _ => !certname.isEmpty && !hostname.isEmpty && caseEq certname hostname

/-! ## `mutt_socket_readln_d` (socket.c)

The connection is modelled as the list of bytes it will deliver before
failing: `mutt_socket_readchar` yields the next byte, and signals an error
(remote close or read failure) once the list is exhausted.  The caller's
buffer is a `List Char` of length `buflen` (initial contents arbitrary);
every store into it is also logged in `writes` so that the memory-safety
claim can speak about which cells were touched. -/

def nullChar : Char := Char.ofNat 0

structure ReadlnOut where
  buf : List Char
  ret : Int
  consumed : Nat
  writes : List Nat
  deriving Repr, DecidableEq

/-- The common tail of `mutt_socket_readln_d`: strip one `'\r'` preceding
the terminator, NUL-terminate, and return `i + 1`. -/
def readlnFinish (buf : List Char) (i consumed : Nat) (writes : List Nat) : ReadlnOut :=
  let i' := if i ≠ 0 ∧ buf.get? (i - 1) = some '\r' then i - 1 else i
  ⟨buf.set i' nullChar, Int.ofNat (i' + 1), consumed, writes ++ [i']⟩

/-- The read loop of `mutt_socket_readln_d`: while `i < buflen - 1`, pull
the next byte (an exhausted `input` is a `mutt_socket_readchar` failure,
which NUL-terminates and returns -1), break on `'\n'`, otherwise store the
byte.  Only meaningful for `buflen ≥ 1` (in C, `buflen` is a `size_t`, and
`buflen = 0` underflows). -/
def readlnLoop : List Char → List Char → Nat → Nat → Nat → List Nat → ReadlnOut
  | [], buf, buflen, i, consumed, writes =>
    if i < buflen - 1 then ⟨buf.set i nullChar, -1, consumed, writes ++ [i]⟩
    else readlnFinish buf i consumed writes
  | c :: rest, buf, buflen, i, consumed, writes =>
    if i < buflen - 1 then
      if c = '\n' then readlnFinish buf i (consumed + 1) writes
      else readlnLoop rest (buf.set i c) buflen (i + 1) (consumed + 1) (writes ++ [i])
    else readlnFinish buf i consumed writes

/-- `mutt_socket_readln_d(buf, buflen, conn, dbg)` on a connection about to
deliver `input`. -/
def mutt_socket_readln (input : List Char) (buflen : Nat) : ReadlnOut :=
  readlnLoop input (List.replicate buflen '?') buflen 0 0 []

/-- One trailing `'\r'` removed, as the `buf[i-1] == '\r'` strip does. -/
def stripCR (l : List Char) : List Char :=
  if l.getLast? = some '\r' then l.dropLast else l

/-- The sequence of stores `buf[i] = l[0]; buf[i+1] = l[1]; ...` performed
by the read loop while it copies a line into the caller's buffer. -/
def storeAll (buf : List Char) (i : Nat) : List Char → List Char
  | [] => buf
  | c :: t => storeAll (buf.set i c) (i + 1) t

/-! ## POP3 header records (pop.c)

`struct Header` as the POP driver uses it: `data` holds the UIDL string,
`refno` the 1-based message number of the current connection (-1 = not seen
this session), `index` the 0-based ordinal.  The envelope and the
read/old flags are owned by external collaborators (RFC 822 parser, header
cache, body cache) and are not part of the bookkeeping verified here. -/

structure PopHeader where
  uidl : String
  refno : Int
  index : Int
  deleted : Bool
  deriving Repr, DecidableEq

/-- `mutt_new_header()` followed by the assignments in `fetch_uidl`. -/
def newPopHeader (uidl : String) (refno : Int) : PopHeader :=
  ⟨uidl, refno, refno - 1, false⟩

/-! ## `fetch_uidl` (pop.c)

The UIDL line has already been parsed by `strtol` + space skipping into the
message number `refno` and the UIDL string.  The C code scans `ctx->hdrs`
for the first header whose `data` equals the UIDL; if none matches it
allocates a new header at the end; then it assigns `refno` and
`index = refno - 1`, setting `clear_cache` when a matched header's index
changed. -/

def fetch_uidl (refno : Int) (uidl : String) :
    List PopHeader → Bool → List PopHeader × Bool
  | [], cc => ([newPopHeader uidl refno], cc)
  | h :: t, cc =>
    if h.uidl = uidl then
      ({ h with refno := refno, index := refno - 1 } :: t,
       cc || decide (h.index ≠ refno - 1))
    else
      (h :: (fetch_uidl refno uidl t cc).1, (fetch_uidl refno uidl t cc).2)

/-- The `pop_fetch_data(pop_data, "UIDL\r\n", ...)` callback stream: apply
`fetch_uidl` to each `<refno> <uidl>` line in order. -/
def uidlEnum (hdrs : List PopHeader) (cc : Bool) :
    List (Int × String) → List PopHeader × Bool
  | [] => (hdrs, cc)
  | (r, u) :: rest =>
    uidlEnum (fetch_uidl r u hdrs cc).1 (fetch_uidl r u hdrs cc).2 rest

/-- Step 1 of `pop_fetch_headers`: `ctx->hdrs[i]->refno = -1` for all `i`. -/
def markStale (hdrs : List PopHeader) : List PopHeader :=
  hdrs.map fun h => { h with refno := -1 }

/-- Step 3 of `pop_fetch_headers`: for the first `oldCount` headers, mark
those still at `refno == -1` as deleted, counting them. -/
def markLost : List PopHeader → Nat → List PopHeader × Nat
  | hdrs, 0 => (hdrs, 0)
  | [], _ + 1 => ([], 0)
  | h :: t, n + 1 =>
    if h.refno = -1 then
      ({ h with deleted := true } :: (markLost t n).1, (markLost t n).2 + 1)
    else (h :: (markLost t n).1, (markLost t n).2)

/-- The per-new-record loop of `pop_fetch_headers`: for each of `n` new
headers the driver consults the header cache or issues `TOP`; the outcome
of each `pop_read_header` (0 success, negative failure) is an input.
Returns how many records were completed and 0, or the first negative
result.  A missing entry in `rcs` counts as success (cache hit). -/
def readNewLoop : Nat → List Int → Nat × Int
  | 0, _ => (0, 0)
  | n + 1, rcs =>
    if rcs.headD 0 < 0 then (0, rcs.headD 0)
    else ((readNewLoop n rcs.tail).1 + 1, (readNewLoop n rcs.tail).2)

/-- The POP session state touched by `pop_fetch_headers`.
`cmdUidl` is the capability tri-state: 0 = Absent, 1 = Present,
2 = Unknown (the initial probe state). -/
structure PopData where
  hdrs : List PopHeader
  checkTime : Int
  clearCache : Bool
  cmdUidl : Nat
  errMsg : String
  deriving Repr, DecidableEq

structure FetchHeadersResult where
  d : PopData
  ret : Int
  /-- the `"%d messages have been lost"` report, when shown -/
  lost : Option Nat
  deriving Repr, DecidableEq

def uidlNotSupportedMsg : String := "Command UIDL is not supported by server."

/-- The capability bookkeeping in `pop_fetch_headers`: only the Unknown
state (2) reacts to the first `UIDL` status; `+OK` (0) promotes to Present
(1), `-ERR` (-2) demotes to Absent (0) and records the user-visible
note in `err_msg`. -/
def uidlCapUpdate (cmdUidl : Nat) (errMsg : String) (uidlRet : Int) : Nat × String :=
  if cmdUidl = 2 then
    if uidlRet = 0 then (1, errMsg)
    else if uidlRet = -2 then (0, uidlNotSupportedMsg)
    else (cmdUidl, errMsg)
  else (cmdUidl, errMsg)

/-- `pop_fetch_headers(ctx)`.

Inputs from the server / collaborators:
  * `now` — the wall clock sampled by `time(&pop_data->check_time)`;
  * `uidlRet` — the status of `pop_fetch_data(.., "UIDL\r\n", ..)`
    (0 `+OK`, -1 transport, -2 `-ERR`, -3 callback failure);
  * `lines` — the `<refno> <uidl>` lines the callback processed;
  * `readRets` — the result of `pop_read_header` for each new record
    (entries beyond the list default to 0, i.e. success).

The header-cache restore path preserves `refno`, `index` and the UIDL and
only replaces the envelope, so it is not distinguished from a successful
`TOP` here; the read/old flag derivation is collaborator-owned and
omitted. -/
def pop_fetch_headers (d : PopData) (now : Int) (uidlRet : Int)
    (lines : List (Int × String)) (readRets : List Int) : FetchHeadersResult :=
  let marked := markStale d.hdrs
  let oldCount := marked.length
  let em := uidlEnum marked false lines
  let newCount := em.1.length
  let cap := uidlCapUpdate d.cmdUidl d.errMsg uidlRet
  let base : PopData :=
    { hdrs := em.1, checkTime := now, clearCache := em.2,
      cmdUidl := cap.1, errMsg := cap.2 }
  if uidlRet = 0 then
    let ml := markLost em.1 oldCount
    let lost := if 0 < ml.2 then some ml.2 else none
    let rl := readNewLoop (newCount - oldCount) readRets
    if rl.2 < 0 then
      ⟨{ base with hdrs := ml.1.take (oldCount + rl.1) }, rl.2, lost⟩
    else
      ⟨{ base with hdrs := ml.1 }, Int.ofNat (newCount - oldCount), lost⟩
  else
    ⟨{ base with hdrs := em.1.take oldCount }, uidlRet, none⟩

/-- Fold a sequence of `pop_fetch_headers` calls over the session, feeding
each call its own server observations. -/
def runFetchHeaders (d : PopData) :
    List (Int × Int × List (Int × String) × List Int) → PopData
  | [] => d
  | (now, ur, lines, rrs) :: rest =>
    runFetchHeaders (pop_fetch_headers d now ur lines rrs).d rest

/-- Rate-limit test at the top of `pop_check_mailbox`:
`(pop_data->check_time + PopCheckinterval) > time(NULL)` makes the check a
no-op. -/
def pop_check_suppressed (checkTime interval now : Int) : Bool :=
  checkTime + interval > now

/-! ## `pop_fetch_message` (pop.c)

The reconnect-and-retry loop.  Each iteration's interaction with the
outside world is an input record: whether `pop_reconnect` succeeded, the
header's `refno` as that iteration sees it, whether a body-cache writer or
a fallback temp file could be opened, and the status of the `RETR`
exchange.  The result reports the return value, every refno for which a
`RETR` command was actually issued, and whether the
"message index is incorrect" error was shown.  `none` means the supplied
iteration list ran out while the loop wanted to retry. -/

structure FetchIter where
  reconnectOk : Bool
  refno : Int
  bcachePutOk : Bool
  tmpOpenOk : Bool
  retrRet : Int
  deriving Repr, DecidableEq

structure FetchMsgResult where
  result : Int
  retrs : List Int
  idxErrShown : Bool
  deriving Repr, DecidableEq

def popFetchLoop : List FetchIter → Option FetchMsgResult
  | [] => none
  | it :: rest =>
    if !it.reconnectOk then some ⟨-1, [], false⟩
    else if it.refno < 0 then some ⟨-1, [], true⟩
    else if !it.bcachePutOk && !it.tmpOpenOk then some ⟨-1, [], false⟩
    else if it.retrRet = 0 then some ⟨0, [it.refno], false⟩
    else if it.retrRet = -2 ∨ it.retrRet = -3 then some ⟨-1, [it.refno], false⟩
    else
      match popFetchLoop rest with
      | none => none
      | some r => some ⟨r.result, it.refno :: r.retrs, r.idxErrShown⟩

/-- `pop_fetch_message(ctx, msg, msgno)`.  `bcacheHit` is whether
`mutt_bcache_get` returned a stream; `cacheEntry` is the fallback
`pop_data->cache[h->index % POP_CACHE_LEN]` slot (index stored there and
whether `fopen` on its path succeeds). -/
def pop_fetch_message (bcacheHit : Bool) (cacheEntry : Option (Int × Bool))
    (hIndex : Int) (iters : List FetchIter) : Option FetchMsgResult :=
  if bcacheHit then some ⟨0, [], false⟩
  else
    match cacheEntry with
    | some (cidx, openOk) =>
      if cidx = hIndex then
        if openOk then some ⟨0, [], false⟩ else some ⟨-1, [], false⟩
      else popFetchLoop iters
    | none => popFetchLoop iters

/-! ## The TLS trust engine (ssl.c)

An X.509 certificate is abstracted to the fields this code inspects:
issuer DN, subject DN, SHA-256 digest (as bytes), the `subjectAltName`
dNSName entries, the subject CN, and whether it is currently within its
validity dates (`X509_cmp_current_time` on notBefore/notAfter, collapsed
into one flag since the code never separates the two outcomes).  The DN
display parts of the prompt are irrelevant to the verified behaviour. -/

structure Cert where
  issuer : String
  subject : String
  digest : List Nat
  sanDns : List String
  cn : Option String
  validNow : Bool
  deriving Repr, DecidableEq

/-- The configuration the trust engine reads.  `certFile` is
`$certificate_file`: `none` when unset, otherwise the parseable PEM blocks
it contains.  `HAVE_SSL_PARTIAL_CHAIN` is assumed compiled in. -/
structure SslConfig where
  sslVerifyDates : Bool
  sslVerifyHost : Bool
  sslVerifyPartialChains : Bool
  certFile : Option (List Cert)
  deriving Repr, DecidableEq

/-- `compare_certificates(cert, peercert, peermd, peermdlen)`: subject
name, issuer name, and SHA-256 digest (with its length) all equal. -/
def compare_certificates (cert peercert : Cert) : Bool :=
  cert.subject = peercert.subject && cert.issuer = peercert.issuer &&
    cert.digest = peercert.digest

/-- `check_certificate_cache(peercert)` against the process-wide
`SslSessionCerts` stack. -/
def check_certificate_cache (sessionCerts : List Cert) (peercert : Cert) : Bool :=
  sessionCerts.any fun c => compare_certificates c peercert

/-- `check_certificate_expiration(peercert, silent)`: always passes when
`$ssl_verify_dates` is `no`; otherwise requires the certificate to be
within its dates.  (`silent` only controls the error messages.) -/
def check_certificate_expiration (cfg : SslConfig) (peercert : Cert) : Bool :=
  !cfg.sslVerifyDates || peercert.validNow

/-- `check_certificate_file(peercert)`: some certificate in
`$certificate_file` is byte-equal to the peer's and itself passes the
(silent) date check. -/
def check_certificate_file (cfg : SslConfig) (peercert : Cert) : Bool :=
  match cfg.certFile with
  | none => false
  | some certs =>
    certs.any fun c =>
      compare_certificates c peercert && check_certificate_expiration cfg c

/-- `check_certificate_by_digest(peercert)`. -/
def check_certificate_by_digest (cfg : SslConfig) (peercert : Cert) : Bool :=
  check_certificate_expiration cfg peercert && check_certificate_file cfg peercert

/-- `check_host(x509cert, hostname, ..)`: try every `subjectAltName`
dNSName, then fall back to the common name whenever no SAN matched.
(The C-side `strlen` guards reject names with embedded NULs, which a
`List Char` model cannot express.) -/
def check_host (cert : Cert) (hostname : List Char) : Bool :=
  if cert.sanDns.any (fun n => hostname_match hostname n.toList) then true
  else
    match cert.cn with
    | some cn => hostname_match hostname cn.toList
    | none => false

/-! ## `interactive_check_cert` (ssl.c)

User input is the sequence of menu choices typed; a choice not currently
offered leaves the menu running (the C `break` inside `switch` without
setting `done`), so the loop consumes the next key.  Exhausting the list
corresponds to aborting the menu, which behaves like reject.  Note the C
fallthrough: "accept always" also performs the "accept once" actions, even
when saving the certificate to the trust file failed. -/

inductive CertChoice
  | reject
  | once
  | always
  | skip
  deriving Repr, DecidableEq

structure PromptResult where
  /-- the return value `done == 2` (true for once / always / skip) -/
  accepted : Bool
  /-- the SkipModeExDataIndex slot after the prompt -/
  skipMode : Bool
  /-- `SslSessionCerts` after the prompt -/
  sessionCerts : List Cert
  /-- whether `(a)ccept always` was on offer -/
  offeredAlways : Bool
  /-- whether `(s)kip` was on offer -/
  offeredSkip : Bool
  deriving Repr, DecidableEq

def promptLoop (cert : Cert) (skipMode : Bool) (sessionCerts : List Cert)
    (allowAlways allowSkip : Bool) : List CertChoice → Bool × Bool × List Cert
  | [] => (false, skipMode, sessionCerts)
  | .reject :: _ => (false, skipMode, sessionCerts)
  | .once :: _ => (true, false, sessionCerts ++ [cert])
  | .always :: rest =>
    if allowAlways then (true, false, sessionCerts ++ [cert])
    else promptLoop cert skipMode sessionCerts allowAlways allowSkip rest
  | .skip :: rest =>
    if allowSkip then (true, true, sessionCerts)
    else promptLoop cert skipMode sessionCerts allowAlways allowSkip rest

/-- `interactive_check_cert(cert, idx, len, ssl, allow_always)`. -/
def interactive_check_cert (cfg : SslConfig) (cert : Cert) (idx : Nat)
    (skipMode : Bool) (sessionCerts : List Cert) (allowAlwaysParam : Bool)
    (answers : List CertChoice) : PromptResult :=
  let allowSkip := decide (idx ≠ 0) && cfg.sslVerifyPartialChains
  let allowAlways := allowAlwaysParam && cfg.certFile.isSome &&
    check_certificate_expiration cfg cert
  let res := promptLoop cert skipMode sessionCerts allowAlways allowSkip answers
  ⟨res.1, res.2.1, res.2.2, allowAlways, allowSkip⟩

/-! ## `ssl_verify_callback` (ssl.c)

Global state: the process-wide `SslSessionCerts` plus the file-scope
`last_pos` / `last_cert` pair used to suppress OpenSSL's duplicate
re-invocation after a skip.  The per-connection skip marker lives in the
SSL extension slot; `ssl_negotiate` nulls it when a connection starts.
The `ssl`/`host` ex-data lookups are assumed to succeed (they are
installed unconditionally by `ssl_negotiate`). -/

structure VerifyGlobal where
  sessionCerts : List Cert
  lastPos : Nat
  lastCert : Option Cert
  deriving Repr, DecidableEq

/-- One invocation of the callback: the chain certificate under scrutiny,
its depth, OpenSSL's pre-verification verdict, the hostname stored in the
connection, and the user's key presses should a prompt open. -/
structure Invocation where
  cert : Cert
  pos : Nat
  preverifyOk : Bool
  hostname : List Char
  answers : List CertChoice
  deriving Repr, DecidableEq

structure VerifyOutcome where
  accepted : Bool
  prompted : Bool
  deriving Repr, DecidableEq

/-- The `last_pos`/`last_cert` bookkeeping performed right after the
duplicate check: the file-scope cache is refreshed only when
`$ssl_verify_partial_chains` is set (it lives inside that `#ifdef`-guarded
block). -/
def verifyG1 (cfg : SslConfig) (g : VerifyGlobal) (inv : Invocation) : VerifyGlobal :=
  if cfg.sslVerifyPartialChains then
    { g with lastPos := inv.pos, lastCert := some inv.cert }
  else g

def ssl_verify_callback (cfg : SslConfig) (g : VerifyGlobal) (skipMode : Bool)
    (inv : Invocation) : VerifyGlobal × Bool × VerifyOutcome :=
  -- duplicate-skip suppression
  if cfg.sslVerifyPartialChains && skipMode && inv.preverifyOk &&
      decide (inv.pos = g.lastPos) &&
      (match g.lastCert with
       | some lc => compare_certificates inv.cert lc
       | none => false) then
    (g, skipMode, ⟨true, false⟩)
  -- check session cache first
  else if check_certificate_cache (verifyG1 cfg g inv).sessionCerts inv.cert then
    (verifyG1 cfg g inv, false, ⟨true, false⟩)
  -- check hostname only for the leaf certificate
  else if inv.pos = 0 && cfg.sslVerifyHost && !check_host inv.cert inv.hostname then
    ({ verifyG1 cfg g inv with sessionCerts :=
        (interactive_check_cert cfg inv.cert inv.pos skipMode
          (verifyG1 cfg g inv).sessionCerts false inv.answers).sessionCerts },
     (interactive_check_cert cfg inv.cert inv.pos skipMode
        (verifyG1 cfg g inv).sessionCerts false inv.answers).skipMode,
     ⟨(interactive_check_cert cfg inv.cert inv.pos skipMode
        (verifyG1 cfg g inv).sessionCerts false inv.answers).accepted, true⟩)
  else if !inv.preverifyOk || skipMode then
    -- automatic check from the user's trust file
    if cfg.certFile.isSome && check_certificate_by_digest cfg inv.cert then
      (verifyG1 cfg g inv, false, ⟨true, false⟩)
    else
      ({ verifyG1 cfg g inv with sessionCerts :=
          (interactive_check_cert cfg inv.cert inv.pos skipMode
            (verifyG1 cfg g inv).sessionCerts true inv.answers).sessionCerts },
       (interactive_check_cert cfg inv.cert inv.pos skipMode
          (verifyG1 cfg g inv).sessionCerts true inv.answers).skipMode,
       ⟨(interactive_check_cert cfg inv.cert inv.pos skipMode
          (verifyG1 cfg g inv).sessionCerts true inv.answers).accepted, true⟩)
  else
    (verifyG1 cfg g inv, skipMode, ⟨true, false⟩)

/-- The verify-engine history: either a new connection begins
(`ssl_negotiate` resets the skip slot) or the callback runs once. -/
inductive VerifyEvent
  | connect
  | callback (inv : Invocation)

structure VerifyState where
  g : VerifyGlobal
  skipMode : Bool

def verifyStep (cfg : SslConfig) (s : VerifyState) : VerifyEvent → VerifyState
  | .connect => { s with skipMode := false }
  | .callback inv =>
    ⟨(ssl_verify_callback cfg s.g s.skipMode inv).1,
     (ssl_verify_callback cfg s.g s.skipMode inv).2.1⟩

def verifyInit : VerifyState := ⟨⟨[], 0, none⟩, false⟩

def verifyRun (cfg : SslConfig) (es : List VerifyEvent) : VerifyState :=
  es.foldl (verifyStep cfg) verifyInit

/-- The wildcard rule as the specification words it: `*.A.B` matches `h`
exactly when `h` has the form `X.A.B` with `X` non-empty and containing no
`'.'`, comparing case-insensitively.  (Stated from the spec, for comparison
with `hostname_match` above.) -/
def specWildcardMatch (h s : List Char) : Prop :=
  ∃ X Y, h = X ++ '.' :: Y ∧ X ≠ [] ∧ '.' ∉ X ∧ caseEq s Y = true

/-- The auxiliary invariant of the verify engine: whenever the skip marker
is set on the current connection, the certificate remembered in the
duplicate-suppression slot is not in the session trust sequence. -/
def lastCertUncached (g : VerifyGlobal) : Prop :=
  ∀ lc, g.lastCert = some lc → check_certificate_cache g.sessionCerts lc = false

def SkipInv (s : VerifyState) : Prop :=
  s.skipMode = true → lastCertUncached s.g

/-! # Theorems -/

theorem caseEq_length {a b : List Char} (h : caseEq a b = true) : a.length = b.length := by
  have h2 : a.map asciiLower = b.map asciiLower := by simpa [caseEq] using h
  simpa using congrArg List.length h2

theorem afterFirstDot_eq_some (h t : List Char) :
    afterFirstDot h = some t ↔ ∃ X, h = X ++ '.' :: t ∧ '.' ∉ X := by
  induction h with
  | nil =>
    constructor
    · intro hh; simp [afterFirstDot] at hh
    · rintro ⟨X, hX, -⟩
      exact absurd hX.symm (by simp)
  | cons c cs ih =>
    by_cases hc : c = '.'
    · subst hc
      rw [show afterFirstDot ('.' :: cs) = some cs from by simp [afterFirstDot]]
      simp only [Option.some_inj]
      constructor
      · rintro rfl
        exact ⟨[], rfl, by simp⟩
      · rintro ⟨X, hX, hdot⟩
        cases X with
        | nil =>
          have : cs = t := by simpa using hX
          simp [this]
        | cons x xs =>
          have hx : x = '.' := by
            have := congrArg List.head? hX
            simpa using this.symm
          exact absurd (hx ▸ List.mem_cons_self x xs) hdot
    · rw [show afterFirstDot (c :: cs) = afterFirstDot cs from by
        simp [afterFirstDot, hc], ih]
      constructor
      · rintro ⟨X, hX, hdot⟩
        refine ⟨c :: X, by simp [hX], ?_⟩
        simp only [List.mem_cons, not_or]
        exact ⟨fun hcc => hc hcc.symm, hdot⟩
      · rintro ⟨X, hX, hdot⟩
        cases X with
        | nil =>
          have : c = '.' := by
            have := congrArg List.head? hX
            simpa using this
          exact absurd this hc
        | cons x xs =>
          have hcx : c = x ∧ cs = xs ++ '.' :: t := by simpa using hX
          refine ⟨xs, hcx.2, fun hm => hdot ?_⟩
          exact List.mem_cons_of_mem _ hm

/-- C2, amended: `hostname_match` accepts `h` against `*.` ++ `s` iff
`h = X ++ "." ++ Y` where `X` contains no dot (`X` **may be empty**),
`Y` equals `s` up to ASCII case, and `s` is non-empty.  The spec's extra
requirement that `X` be non-empty does not hold: the code cuts at the
first dot of the hostname, so an empty first label also matches. -/
theorem hostname_match_wildcard_spec (h s : List Char) :
    hostname_match h ('*' :: '.' :: s) = true ↔
      (∃ X Y, h = X ++ '.' :: Y ∧ '.' ∉ X ∧ caseEq s Y = true) ∧ s ≠ [] := by
  cases hd : afterFirstDot h with
  | none =>
    simp only [hostname_match, hd, Bool.false_eq_true, false_iff, not_and]
    rintro ⟨X, Y, hXY, hdot, -⟩
    have : afterFirstDot h = some Y := (afterFirstDot_eq_some h Y).2 ⟨X, hXY, hdot⟩
    simp [hd] at this
  | some tail =>
    simp only [hostname_match, hd, Bool.and_eq_true, Bool.not_eq_true',
      List.isEmpty_eq_false_iff_exists_mem]
    constructor
    · rintro ⟨⟨hs, ht⟩, hca⟩
      rcases (afterFirstDot_eq_some h tail).1 hd with ⟨X, hX, hdot⟩
      refine ⟨⟨X, tail, hX, hdot, hca⟩, ?_⟩
      rintro rfl
      simp at hs
    · rintro ⟨⟨X, Y, hXY, hdot, hca⟩, hs⟩
      have hY : afterFirstDot h = some Y := (afterFirstDot_eq_some h Y).2 ⟨X, hXY, hdot⟩
      have htail : tail = Y := by
        have := hd.symm.trans hY
        simpa using this
      subst htail
      have hYne : tail ≠ [] := by
        intro h0
        exact hs (List.length_eq_zero.1 (by simpa [h0] using caseEq_length hca))
      refine ⟨⟨?_, ?_⟩, hca⟩
      · rcases List.exists_mem_of_ne_nil s hs with ⟨a, ha⟩
        exact ⟨a, ha⟩
      · rcases List.exists_mem_of_ne_nil tail hYne with ⟨a, ha⟩
        exact ⟨a, ha⟩

/-- C2, counterexample: the claim requires the wildcard label to be
non-empty, but the code accepts the hostname `".example.com"` against
`"*.example.com"` even though its first label is empty. -/
theorem wildcard_matches_empty_label :
    hostname_match (String.toList ".example.com") (String.toList "*.example.com") = true ∧
    ¬ specWildcardMatch (String.toList ".example.com") (String.toList "example.com") := by
  refine ⟨by decide, fun hs => ?_⟩
  rcases hs with ⟨X, Y, hXY, hne, hdot, -⟩
  cases X with
  | nil => exact hne rfl
  | cons x xs =>
    have hx : x = '.' := by
      have := congrArg List.head? hXY
      simpa using this.symm
    exact hdot (hx ▸ List.mem_cons_self x xs)

theorem storeAll_length (l : List Char) : ∀ (buf : List Char) (i : Nat),
    (storeAll buf i l).length = buf.length := by
  induction l with
  | nil => intro buf i; rfl
  | cons c t ih => intro buf i; rw [storeAll, ih, List.length_set]

theorem storeAll_get?_lt (l : List Char) : ∀ (buf : List Char) (i j : Nat), j < i →
    (storeAll buf i l).get? j = buf.get? j := by
  induction l with
  | nil => intro buf i j _; rfl
  | cons c t ih =>
    intro buf i j hj
    rw [storeAll, ih (buf.set i c) (i + 1) j (by omega),
      List.get?_set_ne c buf (show i ≠ j by omega)]

theorem storeAll_get? (l : List Char) : ∀ (buf : List Char) (i j : Nat), j < l.length →
    i + l.length ≤ buf.length → (storeAll buf i l).get? (i + j) = l.get? j := by
  induction l with
  | nil => intro buf i j hj _; simp at hj
  | cons c t ih =>
    intro buf i j hj hb
    cases j with
    | zero =>
      rw [storeAll]
      simp only [Nat.add_zero]
      rw [storeAll_get?_lt t (buf.set i c) (i + 1) i (by omega),
        List.get?_set_eq_of_lt c (show i < buf.length by simp at hb; omega)]
      rfl
    | succ j =>
      rw [storeAll, show i + (j + 1) = (i + 1) + j by omega,
        ih (buf.set i c) (i + 1) j (by simpa using hj) (by rw [List.length_set]; simp at hb; omega)]
      rfl

theorem readlnLoop_run (post : List Char) (buflen : Nat) :
    ∀ (pre buf : List Char) (i consumed : Nat) (writes : List Nat),
      '\n' ∉ pre → i + pre.length + 1 < buflen →
      readlnLoop (pre ++ '\n' :: post) buf buflen i consumed writes =
        readlnFinish (storeAll buf i pre) (i + pre.length) (consumed + pre.length + 1)
          (writes ++ List.range' i pre.length) := by
  intro pre
  induction pre with
  | nil =>
    intro buf i consumed writes _ hfit
    simp only [List.nil_append, List.length_nil, Nat.add_zero, List.range'_zero,
      List.append_nil, storeAll]
    rw [readlnLoop, if_pos (show i < buflen - 1 by omega), if_pos rfl]
  | cons c pre ih =>
    intro buf i consumed writes hn hfit
    have hc : ¬(c = '\n') := fun hh => hn (hh ▸ List.mem_cons_self c pre)
    simp only [List.cons_append]
    rw [readlnLoop, if_pos (show i < buflen - 1 by simp at hfit; omega), if_neg hc,
      ih (buf.set i c) (i + 1) (consumed + 1) (writes ++ [i])
        (fun hm => hn (List.mem_cons_of_mem c hm)) (by simp at hfit ⊢; omega),
      storeAll]
    congr 1
    · simp only [List.length_cons]; omega
    · simp only [List.length_cons]; omega
    · rw [List.append_assoc, List.length_cons, List.range'_succ]
      rfl

/-- C8, amended: on a line that fits the buffer, `mutt_socket_readln_d`
strips the trailing `\r\n` / `\n` terminator, NUL-terminates the stored
line, and returns the **stripped line length plus one** — the bytes read
counting the consumed `\n` but not a stripped `\r` (so for a `\r\n` line
the return value is one less than the bytes read). -/
theorem readln_line_contract (pre post : List Char) (buflen : Nat)
    (hn : '\n' ∉ pre) (hfit : pre.length + 1 < buflen) :
    (mutt_socket_readln (pre ++ '\n' :: post) buflen).ret =
        Int.ofNat ((stripCR pre).length + 1) ∧
    (mutt_socket_readln (pre ++ '\n' :: post) buflen).consumed = pre.length + 1 ∧
    (∀ j, j < (stripCR pre).length →
        (mutt_socket_readln (pre ++ '\n' :: post) buflen).buf.get? j = pre.get? j) ∧
    (mutt_socket_readln (pre ++ '\n' :: post) buflen).buf.get? (stripCR pre).length =
        some nullChar := by
  have hrun := readlnLoop_run post buflen pre (List.replicate buflen '?') 0 0 []
    hn (by omega)
  rw [mutt_socket_readln, hrun]
  simp only [Nat.zero_add, List.nil_append]
  set B := storeAll (List.replicate buflen '?') 0 pre with hB
  have hBlen : B.length = buflen := by
    rw [hB, storeAll_length, List.length_replicate]
  have hBget : ∀ j, j < pre.length → B.get? j = pre.get? j := by
    intro j hj
    have := storeAll_get? pre (List.replicate buflen '?') 0 j hj
      (by rw [List.length_replicate]; omega)
    simpa using this
  have hlast : (pre.length ≠ 0 ∧ B.get? (pre.length - 1) = some '\r') ↔
      pre.getLast? = some '\r' := by
    constructor
    · rintro ⟨hne, hg⟩
      rw [List.getLast?_eq_get?, ← hBget (pre.length - 1) (by omega)]
      exact hg
    · intro hg
      have hne : pre ≠ [] := by
        rintro rfl; simp at hg
      have hlen : pre.length ≠ 0 := by simpa [List.length_eq_zero] using hne
      refine ⟨hlen, ?_⟩
      rw [hBget (pre.length - 1) (by omega), ← List.getLast?_eq_get?]
      exact hg
  simp only [readlnFinish]
  by_cases hr : pre.getLast? = some '\r'
  · rw [if_pos (hlast.2 hr)]
    have hlen' : (stripCR pre).length = pre.length - 1 := by
      simp [stripCR, hr]
    have hne : pre.length ≠ 0 := by
      rintro h0
      rw [List.length_eq_zero] at h0
      simp [h0] at hr
    refine ⟨by simp [hlen'], by trivial, ?_, ?_⟩
    · intro j hj
      rw [hlen'] at hj
      rw [List.get?_set_ne nullChar B (show pre.length - 1 ≠ j by omega),
        hBget j (by omega)]
    · rw [hlen', List.get?_set_eq_of_lt nullChar
        (show pre.length - 1 < B.length by rw [hBlen]; omega)]
  · rw [if_neg (fun hh => hr (hlast.1 hh))]
    have hlen' : (stripCR pre).length = pre.length := by simp [stripCR, hr]
    refine ⟨by simp [hlen'], by trivial, ?_, ?_⟩
    · intro j hj
      rw [hlen'] at hj
      rw [List.get?_set_ne nullChar B (show pre.length ≠ j by omega),
        hBget j (by omega)]
    · rw [hlen', List.get?_set_eq_of_lt nullChar
        (show pre.length < B.length by rw [hBlen]; omega)]

/-- C8, counterexample: the line `"ab\r\n"` is read successfully
(`ret > 0`); four bytes are consumed from the connection, yet the function
returns 3 — the stripped `'\r'` is not counted, so the returned count does
not equal the bytes read including the consumed terminator. -/
theorem readln_count_not_bytes_read :
    0 < (mutt_socket_readln (String.toList "ab\r\nX") 10).ret ∧
    (mutt_socket_readln (String.toList "ab\r\nX") 10).consumed = 4 ∧
    (mutt_socket_readln (String.toList "ab\r\nX") 10).ret = 3 := by decide

theorem readln_line_contract_witness :
    '\n' ∉ String.toList "ab" ∧
    (mutt_socket_readln (String.toList "ab" ++ '\n' :: String.toList "X") 10).ret = 3 ∧
    (mutt_socket_readln (String.toList "ab" ++ '\n' :: String.toList "X") 10).consumed = 3 :=
  ⟨by decide,
   ((readln_line_contract (String.toList "ab") (String.toList "X") 10 (by decide)
      (by decide)).1).trans (by decide),
   ((readln_line_contract (String.toList "ab") (String.toList "X") 10 (by decide)
      (by decide)).2.1).trans (by decide)⟩

theorem readlnFinish_safety (buf : List Char) (i consumed : Nat) (writes : List Nat)
    (buflen : Nat) (hbuf : buf.length = buflen) (hi : i < buflen)
    (hw : ∀ j ∈ writes, j < buflen) :
    (readlnFinish buf i consumed writes).buf.length = buflen ∧
    (∀ j ∈ (readlnFinish buf i consumed writes).writes, j < buflen) ∧
    (readlnFinish buf i consumed writes).consumed = consumed ∧
    ∃ k, k < buflen ∧ (readlnFinish buf i consumed writes).buf.get? k = some nullChar := by
  simp only [readlnFinish]
  set i' := if i ≠ 0 ∧ buf.get? (i - 1) = some '\r' then i - 1 else i with hdef
  have hile : i' ≤ i := by
    rw [hdef]; split <;> omega
  refine ⟨by simp [hbuf], ?_, by trivial, ⟨i', by omega, ?_⟩⟩
  · intro j hj
    rcases List.mem_append.1 hj with h | h
    · exact hw j h
    · simp at h; omega
  · exact List.get?_set_eq_of_lt nullChar (by rw [hbuf]; omega)

theorem readlnLoop_safety (buflen : Nat) (hb : 1 ≤ buflen) :
    ∀ (input buf : List Char) (i consumed : Nat) (writes : List Nat),
      buf.length = buflen → i ≤ buflen - 1 → (∀ j ∈ writes, j < buflen) →
      (readlnLoop input buf buflen i consumed writes).buf.length = buflen ∧
      (∀ j ∈ (readlnLoop input buf buflen i consumed writes).writes, j < buflen) ∧
      (readlnLoop input buf buflen i consumed writes).consumed ≤
        consumed + (buflen - 1 - i) ∧
      ∃ k, k < buflen ∧
        (readlnLoop input buf buflen i consumed writes).buf.get? k = some nullChar := by
  intro input
  induction input with
  | nil =>
    intro buf i consumed writes hbuf hi hw
    rw [readlnLoop]
    split
    · refine ⟨by simp [hbuf], ?_, by simp, ⟨i, by omega, ?_⟩⟩
      · intro j hj
        rcases List.mem_append.1 hj with h | h
        · exact hw j h
        · simp at h; omega
      · show (buf.set i nullChar).get? i = some nullChar
        exact List.get?_set_eq_of_lt nullChar (by rw [hbuf]; omega)
    · have h := readlnFinish_safety buf i consumed writes buflen hbuf (by omega) hw
      refine ⟨h.1, h.2.1, ?_, h.2.2.2⟩
      rw [h.2.2.1]; omega
  | cons c rest ih =>
    intro buf i consumed writes hbuf hi hw
    rw [readlnLoop]
    split
    case isTrue hlt =>
      by_cases hc : c = '\n'
      · rw [if_pos hc]
        have h := readlnFinish_safety buf i (consumed + 1) writes buflen hbuf (by omega) hw
        refine ⟨h.1, h.2.1, ?_, h.2.2.2⟩
        rw [h.2.2.1]; omega
      · rw [if_neg hc]
        have h := ih (buf.set i c) (i + 1) (consumed + 1) (writes ++ [i])
          (by simp [hbuf]) (by omega)
          (fun j hj => by
            rcases List.mem_append.1 hj with h | h
            · exact hw j h
            · simp at h; omega)
        refine ⟨h.1, h.2.1, ?_, h.2.2.2⟩
        have := h.2.2.1
        omega
    case isFalse hge =>
      have h := readlnFinish_safety buf i consumed writes buflen hbuf (by omega) hw
      refine ⟨h.1, h.2.1, ?_, h.2.2.2⟩
      rw [h.2.2.1]; omega

/-- C10: for any capacity `buflen ≥ 1` and any connection content
(including errors and over-long lines), `mutt_socket_readln_d` keeps the
caller's buffer at its original length, every store lands strictly below
`buflen`, at most `buflen - 1` bytes are consumed from the connection, and
the buffer always ends up holding a NUL terminator within bounds. -/
theorem readln_buffer_safety (input : List Char) (buflen : Nat) (hb : 1 ≤ buflen) :
    (mutt_socket_readln input buflen).buf.length = buflen ∧
    (∀ j ∈ (mutt_socket_readln input buflen).writes, j < buflen) ∧
    (mutt_socket_readln input buflen).consumed ≤ buflen - 1 ∧
    ∃ k, k < buflen ∧ (mutt_socket_readln input buflen).buf.get? k = some nullChar := by
  have h := readlnLoop_safety buflen hb input (List.replicate buflen '?') 0 0 []
    (by simp) (by omega) (by simp)
  refine ⟨h.1, h.2.1, ?_, h.2.2.2⟩
  show (readlnLoop input (List.replicate buflen '?') buflen 0 0 []).consumed ≤ buflen - 1
  have := h.2.2.1
  omega

theorem readln_buffer_safety_witness :
    1 ≤ 3 ∧
    ((mutt_socket_readln (String.toList "hello") 3).buf.length = 3 ∧
     (∀ j ∈ (mutt_socket_readln (String.toList "hello") 3).writes, j < 3) ∧
     (mutt_socket_readln (String.toList "hello") 3).consumed ≤ 3 - 1 ∧
     ∃ k, k < 3 ∧ (mutt_socket_readln (String.toList "hello") 3).buf.get? k =
        some nullChar) :=
  ⟨by decide, readln_buffer_safety (String.toList "hello") 3 (by decide)⟩

/-- C4: when `pop_fetch_message` reaches the retrieval loop (no body-cache
hit, no usable temp-file slot), the reconnect succeeds, and the header's
refno is -1, the call shows the "message index is incorrect" error and
returns -1 having issued no `RETR` and without ever retrying. -/
theorem stale_refno_fetch_aborts (ce : Option (Int × Bool)) (hIdx : Int)
    (it : FetchIter) (rest : List FetchIter)
    (hce : ce = none ∨ ∃ ci ok, ce = some (ci, ok) ∧ ci ≠ hIdx)
    (hrc : it.reconnectOk = true) (hrefno : it.refno = -1) :
    pop_fetch_message false ce hIdx (it :: rest) = some ⟨-1, [], true⟩ := by
  have hloop : popFetchLoop (it :: rest) = some ⟨-1, [], true⟩ := by
    rw [popFetchLoop]
    simp [hrc, hrefno]
  rcases hce with rfl | ⟨ci, ok, rfl, hne⟩
  · simpa [pop_fetch_message] using hloop
  · simpa [pop_fetch_message, hne] using hloop

theorem stale_refno_fetch_aborts_witness :
    pop_fetch_message false none 0
      [⟨true, -1, true, true, 0⟩, ⟨true, 5, true, true, 0⟩] = some ⟨-1, [], true⟩ :=
  stale_refno_fetch_aborts none 0 ⟨true, -1, true, true, 0⟩ [⟨true, 5, true, true, 0⟩]
    (Or.inl rfl) rfl rfl

/-- C6: a processed `<refno> <uidl>` line updates the first header whose
UIDL matches — setting its refno to the line's value and its index to
refno-1, and turning `clear_cache` on exactly when the index changed —
and, when no header matches, appends a fresh header carrying that UIDL. -/
theorem fetch_uidl_lookup_spec (r : Int) (u : String) (hdrs : List PopHeader) (cc : Bool) :
    ((∀ h ∈ hdrs, h.uidl ≠ u) →
      fetch_uidl r u hdrs cc = (hdrs ++ [newPopHeader u r], cc)) ∧
    (∀ i h₀, hdrs.get? i = some h₀ → h₀.uidl = u → (∀ h ∈ hdrs.take i, h.uidl ≠ u) →
      (fetch_uidl r u hdrs cc).1 = hdrs.set i { h₀ with refno := r, index := r - 1 } ∧
      (fetch_uidl r u hdrs cc).2 = (cc || decide (h₀.index ≠ r - 1))) := by
  induction hdrs generalizing cc with
  | nil =>
    refine ⟨fun _ => rfl, ?_⟩
    intro i h₀ hget
    simp at hget
  | cons h t ih =>
    constructor
    · intro hall
      have hne : ¬(h.uidl = u) := hall h (List.mem_cons_self h t)
      rw [fetch_uidl, if_neg hne]
      have ht := (ih cc).1 (fun x hx => hall x (List.mem_cons_of_mem h hx))
      rw [ht]
      simp
    · intro i h₀ hget hu htake
      cases i with
      | zero =>
        have hh : h = h₀ := by simpa using hget
        subst hh
        rw [fetch_uidl, if_pos hu]
        exact ⟨rfl, rfl⟩
      | succ i =>
        have hne : ¬(h.uidl = u) := by
          have : h ∈ (h :: t).take (i + 1) := by simp [List.take_succ_cons]
          exact htake h this
        have hget' : t.get? i = some h₀ := by simpa using hget
        have htake' : ∀ x ∈ t.take i, x.uidl ≠ u := fun x hx =>
          htake x (by simp [List.take_succ_cons, hx])
        have ht := (ih cc).2 i h₀ hget' hu htake'
        rw [fetch_uidl, if_neg hne]
        exact ⟨by rw [show ((h :: t).set (i + 1) { h₀ with refno := r, index := r - 1 }) =
            h :: t.set i { h₀ with refno := r, index := r - 1 } from rfl, ← ht.1],
          ht.2⟩

theorem fetch_uidl_lookup_spec_witness :
    (fetch_uidl 2 "a" [⟨"a", 1, 0, false⟩] false).1 = [⟨"a", 2, 1, false⟩] ∧
    (fetch_uidl 2 "a" [⟨"a", 1, 0, false⟩] false).2 = true := by
  have h := (fetch_uidl_lookup_spec 2 "a" [⟨"a", 1, 0, false⟩] false).2 0
    ⟨"a", 1, 0, false⟩ rfl rfl (by simp)
  exact ⟨h.1.trans (by decide), h.2.trans (by decide)⟩

theorem pop_fetch_headers_cap (d : PopData) (now uidlRet : Int)
    (lines : List (Int × String)) (readRets : List Int) :
    (pop_fetch_headers d now uidlRet lines readRets).d.cmdUidl =
        (uidlCapUpdate d.cmdUidl d.errMsg uidlRet).1 ∧
    (pop_fetch_headers d now uidlRet lines readRets).d.errMsg =
        (uidlCapUpdate d.cmdUidl d.errMsg uidlRet).2 := by
  simp only [pop_fetch_headers]
  split
  · split <;> exact ⟨rfl, rfl⟩
  · exact ⟨rfl, rfl⟩

theorem pop_fetch_headers_cap_stable (d : PopData) (now uidlRet : Int)
    (lines : List (Int × String)) (readRets : List Int) (hne : d.cmdUidl ≠ 2) :
    (pop_fetch_headers d now uidlRet lines readRets).d.cmdUidl = d.cmdUidl ∧
    (pop_fetch_headers d now uidlRet lines readRets).d.errMsg = d.errMsg := by
  have h := pop_fetch_headers_cap d now uidlRet lines readRets
  rw [h.1, h.2, uidlCapUpdate, if_neg hne]
  exact ⟨rfl, rfl⟩

/-- C7: the UIDL capability only ever leaves the Unknown state (2): in a
fetch-headers call, `+OK` takes Unknown to Present (1), `-ERR` takes
Unknown to Absent (0) and records the "Command UIDL is not supported"
note, and once the state is Present or Absent no sequence of further
fetch-headers calls changes it. -/
theorem uidl_capability_monotone (d : PopData) (now uidlRet : Int)
    (lines : List (Int × String)) (readRets : List Int)
    (calls : List (Int × Int × List (Int × String) × List Int)) :
    (d.cmdUidl = 2 → uidlRet = 0 →
      (pop_fetch_headers d now uidlRet lines readRets).d.cmdUidl = 1) ∧
    (d.cmdUidl = 2 → uidlRet = -2 →
      (pop_fetch_headers d now uidlRet lines readRets).d.cmdUidl = 0 ∧
      (pop_fetch_headers d now uidlRet lines readRets).d.errMsg = uidlNotSupportedMsg) ∧
    (d.cmdUidl ≠ 2 →
      (pop_fetch_headers d now uidlRet lines readRets).d.cmdUidl = d.cmdUidl ∧
      (pop_fetch_headers d now uidlRet lines readRets).d.errMsg = d.errMsg) ∧
    (d.cmdUidl ≠ 2 → (runFetchHeaders d calls).cmdUidl = d.cmdUidl) := by
  refine ⟨?_, ?_, ?_, ?_⟩
  · intro h2 h0
    rw [(pop_fetch_headers_cap d now uidlRet lines readRets).1, uidlCapUpdate,
      if_pos h2, if_pos h0]
  · intro h2 hm2
    have hcap := pop_fetch_headers_cap d now uidlRet lines readRets
    rw [hcap.1, hcap.2, uidlCapUpdate, if_pos h2,
      if_neg (show ¬(uidlRet = 0) by rw [hm2]; decide), if_pos hm2]
    exact ⟨rfl, rfl⟩
  · exact pop_fetch_headers_cap_stable d now uidlRet lines readRets
  · intro hne
    clear uidlRet lines readRets
    induction calls generalizing d with
    | nil => rfl
    | cons c rest ih =>
      obtain ⟨cn, cu, cl, cr⟩ := c
      rw [runFetchHeaders]
      have hs := pop_fetch_headers_cap_stable d cn cu cl cr hne
      rw [ih _ (by rw [hs.1]; exact hne), hs.1]

theorem uidl_capability_monotone_witness :
    (2 : Nat) = 2 ∧ (-2 : Int) = -2 ∧
    (pop_fetch_headers ⟨[], 0, false, 2, ""⟩ 5 (-2) [] []).d.cmdUidl = 0 ∧
    (pop_fetch_headers ⟨[], 0, false, 2, ""⟩ 5 (-2) [] []).d.errMsg = uidlNotSupportedMsg :=
  ⟨rfl, rfl, (uidl_capability_monotone ⟨[], 0, false, 2, ""⟩ 5 (-2) [] [] []).2.1 rfl rfl⟩

/-- C9, amended: `pop_fetch_headers` stamps `check_time` with the current
time at its start, so the timestamp advances on **every** invocation —
failed ones included — and a failed check therefore suppresses the next
rate-limited re-check for a full interval. -/
theorem fetch_headers_sets_check_time (d : PopData) (now uidlRet : Int)
    (lines : List (Int × String)) (readRets : List Int) :
    (pop_fetch_headers d now uidlRet lines readRets).d.checkTime = now := by
  simp only [pop_fetch_headers]
  split
  · split <;> rfl
  · rfl

/-- C9, counterexample: a fetch-headers call that fails with a transport
error (ret = -1) still moves `check_time` from 0 to 100, and the
rate-limit test in `pop_check_mailbox` then suppresses a re-check at time
130 under a 60-second interval — the claim said a failed invocation leaves
`check_time` unchanged. -/
theorem failed_fetch_updates_check_time :
    (pop_fetch_headers ⟨[], 0, false, 1, ""⟩ 100 (-1) [] []).ret < 0 ∧
    (pop_fetch_headers ⟨[], 0, false, 1, ""⟩ 100 (-1) [] []).d.checkTime = 100 ∧
    ((100 : Int) ≠ 0) ∧
    pop_check_suppressed 100 60 130 = true := by decide

theorem fetch_uidl_length (r : Int) (u : String) :
    ∀ (hdrs : List PopHeader) (cc : Bool),
      hdrs.length ≤ (fetch_uidl r u hdrs cc).1.length := by
  intro hdrs
  induction hdrs with
  | nil => intro cc; simp [fetch_uidl]
  | cons h t ih =>
    intro cc
    rw [fetch_uidl]
    split
    · simp
    · simpa using ih cc

theorem fetch_uidl_mem (r : Int) (u : String) :
    ∀ (hdrs : List PopHeader) (cc : Bool) (x : PopHeader),
      x ∈ (fetch_uidl r u hdrs cc).1 → x ∈ hdrs ∨ x.refno = r := by
  intro hdrs
  induction hdrs with
  | nil =>
    intro cc x hx
    have : x = newPopHeader u r := by simpa [fetch_uidl] using hx
    exact Or.inr (by rw [this]; rfl)
  | cons h t ih =>
    intro cc x hx
    rw [fetch_uidl] at hx
    split at hx
    · rcases List.mem_cons.1 hx with rfl | hx
      · exact Or.inr rfl
      · exact Or.inl (List.mem_cons_of_mem h hx)
    · rcases List.mem_cons.1 hx with rfl | hx
      · exact Or.inl (List.mem_cons_self x t)
      · rcases ih cc x hx with h1 | h1
        · exact Or.inl (List.mem_cons_of_mem h h1)
        · exact Or.inr h1

theorem fetch_uidl_get?_pos (r : Int) (u : String) (hr : 0 < r) :
    ∀ (hdrs : List PopHeader) (cc : Bool) (n : Nat),
      (∀ j x, n ≤ j → hdrs.get? j = some x → 0 < x.refno) →
      ∀ j x, n ≤ j → (fetch_uidl r u hdrs cc).1.get? j = some x → 0 < x.refno := by
  intro hdrs
  induction hdrs with
  | nil =>
    intro cc n _ j x _ hget
    simp [fetch_uidl] at hget
    cases j with
    | zero =>
      have : newPopHeader u r = x := by simpa using hget
      rw [← this]; exact hr
    | succ j => simp at hget
  | cons h t ih =>
    intro cc n hp j x hnj hget
    rw [fetch_uidl] at hget
    split at hget
    · cases j with
      | zero =>
        have : ({ h with refno := r, index := r - 1 } : PopHeader) = x := by
          simpa using hget
        rw [← this]; exact hr
      | succ j => exact hp (j + 1) x hnj (by simpa using hget)
    · cases j with
      | zero => exact hp 0 x hnj (by simpa using hget)
      | succ j =>
        refine ih cc (n - 1)
          (fun j x hj hg => hp (j + 1) x (by omega) (by simpa using hg))
          j x (by omega) (by simpa using hget)

theorem uidlEnum_length :
    ∀ (lines : List (Int × String)) (hdrs : List PopHeader) (cc : Bool),
      hdrs.length ≤ (uidlEnum hdrs cc lines).1.length := by
  intro lines
  induction lines with
  | nil => intro hdrs cc; exact Nat.le_refl _
  | cons p rest ih =>
    intro hdrs cc
    obtain ⟨r, u⟩ := p
    rw [uidlEnum]
    exact (fetch_uidl_length r u hdrs cc).trans (ih _ _)

theorem uidlEnum_mem (lines : List (Int × String)) (hl : ∀ p ∈ lines, 0 < p.1) :
    ∀ (hdrs : List PopHeader) (cc : Bool),
      (∀ x ∈ hdrs, 0 < x.refno ∨ x.refno = -1) →
      ∀ x ∈ (uidlEnum hdrs cc lines).1, 0 < x.refno ∨ x.refno = -1 := by
  induction lines with
  | nil => intro hdrs cc hp x hx; exact hp x hx
  | cons p rest ih =>
    intro hdrs cc hp x hx
    obtain ⟨r, u⟩ := p
    rw [uidlEnum] at hx
    refine ih (fun q hq => hl q (List.mem_cons_of_mem _ hq)) _ _ ?_ x hx
    intro y hy
    rcases fetch_uidl_mem r u hdrs cc y hy with h1 | h1
    · exact hp y h1
    · exact Or.inl (h1 ▸ hl (r, u) (List.mem_cons_self _ _))

theorem uidlEnum_get?_pos (lines : List (Int × String)) (hl : ∀ p ∈ lines, 0 < p.1) :
    ∀ (hdrs : List PopHeader) (cc : Bool) (n : Nat),
      (∀ j x, n ≤ j → hdrs.get? j = some x → 0 < x.refno) →
      ∀ j x, n ≤ j → (uidlEnum hdrs cc lines).1.get? j = some x → 0 < x.refno := by
  induction lines with
  | nil => intro hdrs cc n hp j x hnj hget; exact hp j x hnj hget
  | cons p rest ih =>
    intro hdrs cc n hp j x hnj hget
    obtain ⟨r, u⟩ := p
    rw [uidlEnum] at hget
    refine ih (fun q hq => hl q (List.mem_cons_of_mem _ hq)) _ _ n ?_ j x hnj hget
    exact fetch_uidl_get?_pos r u (hl (r, u) (List.mem_cons_self _ _)) hdrs cc n hp

theorem markLost_length : ∀ (l : List PopHeader) (n : Nat),
    (markLost l n).1.length = l.length := by
  intro l
  induction l with
  | nil => intro n; cases n <;> rfl
  | cons h t ih =>
    intro n
    cases n with
    | zero => rfl
    | succ n =>
      rw [markLost]
      split <;> simp [ih n]

theorem markLost_get?_lt : ∀ (l : List PopHeader) (n i : Nat), i < n →
    (markLost l n).1.get? i = (l.get? i).map
      (fun h => if h.refno = -1 then { h with deleted := true } else h) := by
  intro l
  induction l with
  | nil =>
    intro n i _
    cases n <;> rfl
  | cons h t ih =>
    intro n i hin
    cases n with
    | zero => omega
    | succ n =>
      rw [markLost]
      cases i with
      | zero => split <;> simp_all
      | succ i =>
        have := ih n i (by omega)
        split <;> simpa using this

theorem markLost_get?_ge : ∀ (l : List PopHeader) (n i : Nat), n ≤ i →
    (markLost l n).1.get? i = l.get? i := by
  intro l
  induction l with
  | nil => intro n i _; cases n <;> rfl
  | cons h t ih =>
    intro n i hin
    cases n with
    | zero => rfl
    | succ n =>
      rw [markLost]
      cases i with
      | zero => omega
      | succ i =>
        have := ih n i (by omega)
        split <;> simpa using this

theorem markLost_count : ∀ (l : List PopHeader) (n : Nat),
    (markLost l n).2 = ((l.take n).filter (fun h => decide (h.refno = -1))).length := by
  intro l
  induction l with
  | nil => intro n; cases n <;> rfl
  | cons h t ih =>
    intro n
    cases n with
    | zero => rfl
    | succ n =>
      rw [markLost, List.take_succ_cons]
      by_cases hh : h.refno = -1
      · rw [if_pos hh]
        simp [List.filter_cons, hh, ih n]
      · rw [if_neg hh]
        simp [List.filter_cons, hh, ih n]

/-- C5, amended: provided every UIDL line carries a positive message
number (as a conforming server sends), a successful fetch-headers leaves
every header either live (`refno > 0`) or flagged deleted; the headers
still at `refno = -1` after the enumeration are exactly the ones whose
deleted flag this pass turns on, and their count is the number reported
(`none` when zero).  Without the positivity proviso the claim fails: a
line numbered 0 creates a header with `refno = 0`, neither live nor
deleted. -/
theorem fetch_headers_lost_marking (d : PopData) (now : Int)
    (lines : List (Int × String)) (readRets : List Int)
    (hl : ∀ p ∈ lines, 0 < p.1) :
    (0 ≤ (pop_fetch_headers d now 0 lines readRets).ret →
      ∀ h ∈ (pop_fetch_headers d now 0 lines readRets).d.hdrs,
        0 < h.refno ∨ h.deleted = true) ∧
    (0 ≤ (pop_fetch_headers d now 0 lines readRets).ret →
      ∀ i, (pop_fetch_headers d now 0 lines readRets).d.hdrs.get? i =
        ((uidlEnum (markStale d.hdrs) false lines).1.get? i).map
          (fun h => if h.refno = -1 then { h with deleted := true } else h)) ∧
    (pop_fetch_headers d now 0 lines readRets).lost =
      (if 0 < ((uidlEnum (markStale d.hdrs) false lines).1.filter
            (fun h => decide (h.refno = -1))).length then
        some (((uidlEnum (markStale d.hdrs) false lines).1.filter
            (fun h => decide (h.refno = -1))).length)
       else none) := by
  have hstale0 : ∀ j x, (markStale d.hdrs).length ≤ j →
      (markStale d.hdrs).get? j = some x → 0 < x.refno := by
    intro j x hj hget
    have : (markStale d.hdrs).get? j = none := List.get?_eq_none.2 hj
    rw [this] at hget
    exact absurd hget (by simp)
  have hmem0 : ∀ x ∈ markStale d.hdrs, 0 < x.refno ∨ x.refno = -1 := by
    intro x hx
    rcases List.mem_map.1 hx with ⟨y, -, hy⟩
    exact Or.inr (by rw [← hy])
  have hpos := uidlEnum_get?_pos lines hl (markStale d.hdrs) false
    (markStale d.hdrs).length hstale0
  have hmem := uidlEnum_mem lines hl (markStale d.hdrs) false hmem0
  have hcount : (markLost (uidlEnum (markStale d.hdrs) false lines).1
      (markStale d.hdrs).length).2 =
      ((uidlEnum (markStale d.hdrs) false lines).1.filter
        (fun h => decide (h.refno = -1))).length := by
    rw [markLost_count]
    have hsplit := List.take_append_drop (markStale d.hdrs).length
      (uidlEnum (markStale d.hdrs) false lines).1
    have hdropnil : ((uidlEnum (markStale d.hdrs) false lines).1.drop
        (markStale d.hdrs).length).filter (fun h => decide (h.refno = -1)) = [] := by
      rw [List.filter_eq_nil]
      intro a ha
      rcases List.mem_iff_get?.1 ha with ⟨j, hj⟩
      rw [List.get?_drop] at hj
      have := hpos _ a (by omega) hj
      simp only [decide_eq_true_eq]
      omega
    conv_rhs => rw [← hsplit]
    rw [List.filter_append, hdropnil, List.append_nil]
  have hmark_get : ∀ i,
      (markLost (uidlEnum (markStale d.hdrs) false lines).1
        (markStale d.hdrs).length).1.get? i =
      (((uidlEnum (markStale d.hdrs) false lines).1.get? i).map
        (fun h => if h.refno = -1 then { h with deleted := true } else h)) := by
    intro i
    by_cases hi : i < (markStale d.hdrs).length
    · exact markLost_get?_lt _ _ i hi
    · rw [markLost_get?_ge _ _ i (by omega)]
      cases hg : (uidlEnum (markStale d.hdrs) false lines).1.get? i with
      | none => rfl
      | some x =>
        have hx := hpos i x (by omega) hg
        simp only [Option.map_some']
        rw [if_neg (by omega)]
  have hchar : (pop_fetch_headers d now 0 lines readRets).lost =
      (if 0 < (markLost (uidlEnum (markStale d.hdrs) false lines).1
          (markStale d.hdrs).length).2 then
        some ((markLost (uidlEnum (markStale d.hdrs) false lines).1
          (markStale d.hdrs).length).2) else none) ∧
      (0 ≤ (pop_fetch_headers d now 0 lines readRets).ret →
        (pop_fetch_headers d now 0 lines readRets).d.hdrs =
          (markLost (uidlEnum (markStale d.hdrs) false lines).1
            (markStale d.hdrs).length).1) := by
    simp only [pop_fetch_headers, if_pos rfl]
    by_cases hneg : (readNewLoop ((uidlEnum (markStale d.hdrs) false lines).1.length -
        (markStale d.hdrs).length) readRets).2 < 0
    · rw [if_pos hneg]
      refine ⟨rfl, ?_⟩
      intro h
      have h2 : (0 : Int) ≤ (readNewLoop ((uidlEnum (markStale d.hdrs) false
          lines).1.length - (markStale d.hdrs).length) readRets).2 := h
      omega
    · rw [if_neg hneg]
      exact ⟨rfl, fun _ => rfl⟩
  refine ⟨?_, ?_, ?_⟩
  · intro hret h hmemh
    rw [hchar.2 hret] at hmemh
    rcases List.mem_iff_get?.1 hmemh with ⟨i, hi⟩
    rw [hmark_get i] at hi
    cases hg : (uidlEnum (markStale d.hdrs) false lines).1.get? i with
    | none => rw [hg] at hi; exact absurd hi (by simp)
    | some x =>
      rw [hg] at hi
      simp only [Option.map_some', Option.some_inj] at hi
      rcases hmem x (List.get?_mem hg) with hx | hx
      · rw [← hi, if_neg (by omega)]
        exact Or.inl hx
      · rw [← hi, if_pos hx]
        exact Or.inr rfl
  · intro hret i
    rw [hchar.2 hret]
    exact hmark_get i
  · rw [hchar.1, hcount]

/-- C5, counterexample: a UIDL line `"0 u"` makes `fetch_uidl` allocate a
header with `refno = 0`; the fetch succeeds (ret = 1) yet that header is
neither live (`refno > 0`) nor flagged deleted. -/
theorem fetch_headers_live_or_deleted_fails :
    0 ≤ (pop_fetch_headers ⟨[], 0, false, 1, ""⟩ 5 0 [(0, "u")] []).ret ∧
    ∃ h ∈ (pop_fetch_headers ⟨[], 0, false, 1, ""⟩ 5 0 [(0, "u")] []).d.hdrs,
      ¬(0 < h.refno ∨ h.deleted = true) := by decide

theorem fetch_headers_lost_marking_witness :
    (∀ p ∈ [((1 : Int), "AAA"), ((2 : Int), "CCC")], 0 < p.1) ∧
    (pop_fetch_headers
        ⟨[⟨"AAA", 1, 0, false⟩, ⟨"BBB", 2, 1, false⟩, ⟨"CCC", 3, 2, false⟩],
          0, false, 1, ""⟩
        60 0 [(1, "AAA"), (2, "CCC")] []).lost = some 1 :=
  ⟨by decide,
   ((fetch_headers_lost_marking
      ⟨[⟨"AAA", 1, 0, false⟩, ⟨"BBB", 2, 1, false⟩, ⟨"CCC", 3, 2, false⟩],
        0, false, 1, ""⟩
      60 [(1, "AAA"), (2, "CCC")] [] (by decide)).2.2).trans (by decide)⟩

/-- C3, amended: in the interactive certificate prompt, `(a)ccept always`
is offered iff the caller allowed it, a trust file is configured, and the
certificate passes the expiration check — a check that passes trivially
when `$ssl_verify_dates` is disabled, so an expired certificate can still
be offered "accept always"; `(s)kip` is offered iff partial-chain
acceptance is enabled and the certificate is not the leaf (depth 0). -/
theorem interactive_check_cert_choices (cfg : SslConfig) (cert : Cert) (idx : Nat)
    (skipMode : Bool) (certs : List Cert) (param : Bool) (answers : List CertChoice) :
    (interactive_check_cert cfg cert idx skipMode certs param answers).offeredAlways
        = (param && cfg.certFile.isSome && (!cfg.sslVerifyDates || cert.validNow)) ∧
    (interactive_check_cert cfg cert idx skipMode certs param answers).offeredSkip
        = (decide (idx ≠ 0) && cfg.sslVerifyPartialChains) :=
  ⟨rfl, rfl⟩

/-- C3, counterexample: with `$ssl_verify_dates` disabled, a certificate
outside its validity dates, at depth 0, caller-allowed, trust file
configured: the prompt offers `(a)ccept always` although the certificate
is not within its validity dates, contradicting the claim's iff. -/
theorem accept_always_offered_for_expired_cert :
    (interactive_check_cert ⟨false, true, false, some []⟩
        ⟨"I", "S", [1], [], none, false⟩ 0 false [] true
        [CertChoice.reject]).offeredAlways = true ∧
    (⟨"I", "S", [1], [], none, false⟩ : Cert).validNow = false := by decide

theorem compare_certificates_trans {a b c : Cert}
    (h1 : compare_certificates a b = true) (h2 : compare_certificates b c = true) :
    compare_certificates a c = true := by
  simp only [compare_certificates, Bool.and_eq_true, decide_eq_true_eq] at h1 h2 ⊢
  exact ⟨⟨h1.1.1.trans h2.1.1, h1.1.2.trans h2.1.2⟩, h1.2.trans h2.2⟩

theorem check_certificate_cache_mem {certs : List Cert} {peer : Cert} :
    check_certificate_cache certs peer = true ↔
      ∃ c ∈ certs, compare_certificates c peer = true := by
  simp [check_certificate_cache, List.any_eq_true]

theorem promptLoop_cases (cert : Cert) (skipMode : Bool) (certs : List Cert)
    (aa as : Bool) : ∀ (answers : List CertChoice),
    ((promptLoop cert skipMode certs aa as answers).2.1 = skipMode ∧
      (promptLoop cert skipMode certs aa as answers).2.2 = certs) ∨
    ((promptLoop cert skipMode certs aa as answers).2.1 = false ∧
      (promptLoop cert skipMode certs aa as answers).2.2 = certs ++ [cert]) ∨
    (as = true ∧ (promptLoop cert skipMode certs aa as answers).2.1 = true ∧
      (promptLoop cert skipMode certs aa as answers).2.2 = certs) := by
  intro answers
  induction answers with
  | nil => exact Or.inl ⟨rfl, rfl⟩
  | cons a rest ih =>
    cases a with
    | reject => exact Or.inl ⟨rfl, rfl⟩
    | once => exact Or.inr (Or.inl ⟨rfl, rfl⟩)
    | always =>
      rw [promptLoop]
      split
      · exact Or.inr (Or.inl ⟨rfl, rfl⟩)
      · exact ih
    | skip =>
      rw [promptLoop]
      split
      case isTrue h => exact Or.inr (Or.inr ⟨h, rfl, rfl⟩)
      case isFalse h => exact ih

theorem interactive_check_cert_cases (cfg : SslConfig) (cert : Cert) (idx : Nat)
    (skipMode : Bool) (certs : List Cert) (param : Bool) (answers : List CertChoice) :
    ((interactive_check_cert cfg cert idx skipMode certs param answers).skipMode =
        skipMode ∧
      (interactive_check_cert cfg cert idx skipMode certs param answers).sessionCerts =
        certs) ∨
    ((interactive_check_cert cfg cert idx skipMode certs param answers).skipMode =
        false ∧
      (interactive_check_cert cfg cert idx skipMode certs param answers).sessionCerts =
        certs ++ [cert]) ∨
    (cfg.sslVerifyPartialChains = true ∧
      (interactive_check_cert cfg cert idx skipMode certs param answers).skipMode =
        true ∧
      (interactive_check_cert cfg cert idx skipMode certs param answers).sessionCerts =
        certs) := by
  rcases promptLoop_cases cert skipMode certs
      (param && cfg.certFile.isSome && check_certificate_expiration cfg cert)
      (decide (idx ≠ 0) && cfg.sslVerifyPartialChains) answers with
    ⟨h1, h2⟩ | ⟨h1, h2⟩ | ⟨has, h1, h2⟩
  · exact Or.inl ⟨h1, h2⟩
  · exact Or.inr (Or.inl ⟨h1, h2⟩)
  · exact Or.inr (Or.inr ⟨((Bool.and_eq_true _ _).mp has).2, h1, h2⟩)

theorem verifyG1_sessionCerts (cfg : SslConfig) (g : VerifyGlobal) (inv : Invocation) :
    (verifyG1 cfg g inv).sessionCerts = g.sessionCerts := by
  rw [verifyG1]; split <;> rfl

theorem ssl_verify_callback_skip_inv (cfg : SslConfig) (g : VerifyGlobal)
    (skipMode : Bool) (inv : Invocation)
    (hpre : skipMode = true → lastCertUncached g) :
    (ssl_verify_callback cfg g skipMode inv).2.1 = true →
      lastCertUncached (ssl_verify_callback cfg g skipMode inv).1 := by
  rw [ssl_verify_callback]
  split
  case isTrue hdup => exact fun h => hpre h
  case isFalse hdup =>
  split
  case isTrue hcache => exact fun h => absurd h (by simp)
  case isFalse hcache =>
  have hcache' : check_certificate_cache g.sessionCerts inv.cert = false := by
    rw [← verifyG1_sessionCerts cfg g inv]
    simpa using hcache
  have hprompt : ∀ (param : Bool),
      (interactive_check_cert cfg inv.cert inv.pos skipMode
        (verifyG1 cfg g inv).sessionCerts param inv.answers).skipMode = true →
      ∀ lc, (verifyG1 cfg g inv).lastCert = some lc →
        check_certificate_cache
          (interactive_check_cert cfg inv.cert inv.pos skipMode
            (verifyG1 cfg g inv).sessionCerts param inv.answers).sessionCerts lc
          = false := by
    intro param h lc hlc
    rcases interactive_check_cert_cases cfg inv.cert inv.pos skipMode
        (verifyG1 cfg g inv).sessionCerts param inv.answers with
      ⟨h1, h2⟩ | ⟨h1, h2⟩ | ⟨hpc, h1, h2⟩
    · have hsk : skipMode = true := by rw [← h1]; exact h
      by_cases hpc2 : cfg.sslVerifyPartialChains = true
      · have hlast : (verifyG1 cfg g inv).lastCert = some inv.cert := by
          rw [verifyG1, if_pos hpc2]
        rw [hlast] at hlc
        obtain rfl : inv.cert = lc := by injection hlc
        rw [h2, verifyG1_sessionCerts]
        exact hcache'
      · have hgg : verifyG1 cfg g inv = g := by rw [verifyG1, if_neg hpc2]
        rw [hgg] at hlc
        rw [h2, hgg]
        exact hpre hsk lc hlc
    · rw [h1] at h
      exact absurd h (by simp)
    · have hlast : (verifyG1 cfg g inv).lastCert = some inv.cert := by
        rw [verifyG1, if_pos hpc]
      rw [hlast] at hlc
      obtain rfl : inv.cert = lc := by injection hlc
      rw [h2, verifyG1_sessionCerts]
      exact hcache'
  split
  case isTrue hhost =>
    intro h lc hlc
    exact hprompt false h lc hlc
  case isFalse hhost =>
  split
  case isTrue hprev =>
    split
    case isTrue hfile => exact fun h => absurd h (by simp)
    case isFalse hfile =>
      intro h lc hlc
      exact hprompt true h lc hlc
  case isFalse hprev =>
    intro h
    have hsk : skipMode = true := h
    rw [hsk] at hprev
    simp at hprev

theorem verifyStep_inv (cfg : SslConfig) (s : VerifyState) (e : VerifyEvent)
    (hinv : SkipInv s) : SkipInv (verifyStep cfg s e) := by
  cases e with
  | connect =>
    intro h
    simp [verifyStep] at h
  | callback inv => exact ssl_verify_callback_skip_inv cfg s.g s.skipMode inv hinv

theorem verifyRun_inv (cfg : SslConfig) (es : List VerifyEvent) :
    SkipInv (verifyRun cfg es) := by
  rw [verifyRun]
  have hgen : ∀ (s : VerifyState), SkipInv s → SkipInv (es.foldl (verifyStep cfg) s) := by
    induction es with
    | nil => intro s hs; exact hs
    | cons e rest ih => intro s hs; exact ih _ (verifyStep_inv cfg s e hs)
  refine hgen verifyInit (fun h => absurd h ?_)
  simp [verifyInit]

/-- C1: after any history of connections and verification-callback
invocations in the process, if a certificate byte-equal (same issuer name,
same subject name, same SHA-256 digest) to the one presented is in the
process-wide session trust sequence — it got there through "accept once"
or "accept always" — then the verification callback accepts it, never
opens the interactive prompt, and clears the connection's skip marker. -/
theorem session_cache_accepts_without_prompt (cfg : SslConfig) (es : List VerifyEvent)
    (inv : Invocation)
    (hc : check_certificate_cache (verifyRun cfg es).g.sessionCerts inv.cert = true) :
    (ssl_verify_callback cfg (verifyRun cfg es).g (verifyRun cfg es).skipMode
        inv).2.2.accepted = true ∧
    (ssl_verify_callback cfg (verifyRun cfg es).g (verifyRun cfg es).skipMode
        inv).2.2.prompted = false ∧
    (ssl_verify_callback cfg (verifyRun cfg es).g (verifyRun cfg es).skipMode
        inv).2.1 = false := by
  have hinv := verifyRun_inv cfg es
  set s := verifyRun cfg es with hs
  have hdup : (cfg.sslVerifyPartialChains && s.skipMode && inv.preverifyOk &&
      decide (inv.pos = s.g.lastPos) &&
      (match s.g.lastCert with
       | some lc => compare_certificates inv.cert lc
       | none => false)) = false := by
    cases hb : (cfg.sslVerifyPartialChains && s.skipMode && inv.preverifyOk &&
        decide (inv.pos = s.g.lastPos) &&
        (match s.g.lastCert with
         | some lc => compare_certificates inv.cert lc
         | none => false)) with
    | false => rfl
    | true =>
      exfalso
      simp only [Bool.and_eq_true] at hb
      obtain ⟨⟨⟨⟨-, hskip⟩, -⟩, -⟩, hmatch⟩ := hb
      cases hlc : s.g.lastCert with
      | none => rw [hlc] at hmatch; exact absurd hmatch (by simp)
      | some lc =>
        rw [hlc] at hmatch
        have hcmp : compare_certificates inv.cert lc = true := hmatch
        have huncached := hinv hskip lc hlc
        rcases check_certificate_cache_mem.mp hc with ⟨c0, hc0mem, hc0cmp⟩
        have : check_certificate_cache s.g.sessionCerts lc = true :=
          check_certificate_cache_mem.mpr
            ⟨c0, hc0mem, compare_certificates_trans hc0cmp hcmp⟩
        rw [huncached] at this
        exact absurd this (by simp)
  rw [ssl_verify_callback, if_neg (by rw [hdup]; simp),
    if_pos (show check_certificate_cache (verifyG1 cfg s.g inv).sessionCerts inv.cert
      = true by rw [verifyG1_sessionCerts]; exact hc)]
  exact ⟨rfl, rfl, rfl⟩

theorem session_cache_accepts_without_prompt_witness :
    check_certificate_cache
        (verifyRun ⟨true, true, false, none⟩
          [VerifyEvent.connect,
           VerifyEvent.callback
             ⟨⟨"I", "S", [1, 2], [], none, true⟩, 1, false, [],
              [CertChoice.once]⟩]).g.sessionCerts
        ⟨"I", "S", [1, 2], [], none, true⟩ = true ∧
    ((ssl_verify_callback ⟨true, true, false, none⟩
        (verifyRun ⟨true, true, false, none⟩
          [VerifyEvent.connect,
           VerifyEvent.callback
             ⟨⟨"I", "S", [1, 2], [], none, true⟩, 1, false, [],
              [CertChoice.once]⟩]).g
        (verifyRun ⟨true, true, false, none⟩
          [VerifyEvent.connect,
           VerifyEvent.callback
             ⟨⟨"I", "S", [1, 2], [], none, true⟩, 1, false, [],
              [CertChoice.once]⟩]).skipMode
        ⟨⟨"I", "S", [1, 2], [], none, true⟩, 2, true, [], []⟩).2.2.accepted = true ∧
     (ssl_verify_callback ⟨true, true, false, none⟩
        (verifyRun ⟨true, true, false, none⟩
          [VerifyEvent.connect,
           VerifyEvent.callback
             ⟨⟨"I", "S", [1, 2], [], none, true⟩, 1, false, [],
              [CertChoice.once]⟩]).g
        (verifyRun ⟨true, true, false, none⟩
          [VerifyEvent.connect,
           VerifyEvent.callback
             ⟨⟨"I", "S", [1, 2], [], none, true⟩, 1, false, [],
              [CertChoice.once]⟩]).skipMode
        ⟨⟨"I", "S", [1, 2], [], none, true⟩, 2, true, [], []⟩).2.2.prompted = false ∧
     (ssl_verify_callback ⟨true, true, false, none⟩
        (verifyRun ⟨true, true, false, none⟩
          [VerifyEvent.connect,
           VerifyEvent.callback
             ⟨⟨"I", "S", [1, 2], [], none, true⟩, 1, false, [],
              [CertChoice.once]⟩]).g
        (verifyRun ⟨true, true, false, none⟩
          [VerifyEvent.connect,
           VerifyEvent.callback
             ⟨⟨"I", "S", [1, 2], [], none, true⟩, 1, false, [],
              [CertChoice.once]⟩]).skipMode
        ⟨⟨"I", "S", [1, 2], [], none, true⟩, 2, true, [], []⟩).2.1 = false) :=
  ⟨by decide,
   session_cache_accepts_without_prompt ⟨true, true, false, none⟩
     [VerifyEvent.connect,
      VerifyEvent.callback
        ⟨⟨"I", "S", [1, 2], [], none, true⟩, 1, false, [], [CertChoice.once]⟩]
     ⟨⟨"I", "S", [1, 2], [], none, true⟩, 2, true, [], []⟩ (by decide)⟩

end NeoMutt
